import Mathlib

/-!
Verification of the composable_query_builder core: a shallow embedding of the
query-assembly engine (builder state, recursive table-expression splicing,
condition-set rendering, and marker-to-positional-parameter rendering),
together with theorems about its assembly and rendering behaviour.

The sources embedded here are `src/order.rs`, `src/sql_value.rs`,
`src/where_clause.rs` and `src/lib.rs`.  `lib.rs` carries its own inline
variants of `WhereClauses` and `SQLValue`; those are embedded in the `Lib`
namespace, while the standalone `sql_value.rs` / `where_clause.rs` variants
live at top level.
-/

set_option autoImplicit false

/-- Embeds `OrderDir` from `src/order.rs`. -/
inductive OrderDir where
  | Asc
  | Desc
  deriving Repr, DecidableEq

/-- Embeds `OrderDir::as_str` from `src/order.rs`. -/
def OrderDir.as_str : OrderDir → String
  | .Asc => "asc"
  | .Desc => "desc"

/-- Model of chrono's `NaiveDateTime`: an external leaf type, carried here as
an opaque timestamp payload; none of its internal structure is relevant to the
assembly or rendering algorithms. -/
structure NaiveDateTime where
  ticks : Int
  deriving Repr, DecidableEq

/-- Embeds `SQLValue` from `src/sql_value.rs` (nine variants).  Machine
integers are carried as `Int`/`Nat`; the `U64` payload is the mathematical
value of the unsigned 64-bit integer (an invariant `v < 2^64` is carried as a
hypothesis where it matters). -/
inductive SQLValue where
  | I16 (v : Int)
  | I32 (v : Int)
  | I64 (v : Int)
  | U64 (v : Nat)
  | F64 (v : Float)
  | DateTime (v : NaiveDateTime)
  | VecI64 (v : List Int)
  | String (v : String)
  | Bool (v : Bool)

/-- Wire-level values accepted by the destination driver's bind API
(sqlx `QueryBuilder::push_bind` after Rust-level conversion). -/
inductive BindValue where
  | i16 (v : Int)
  | i32 (v : Int)
  | i64 (v : Int)
  | f64 (v : Float)
  | datetime (v : NaiveDateTime)
  | vecI64 (v : List Int)
  | str (v : String)
  | bool (v : Bool)

/-- Model of sqlx's `QueryBuilder<Postgres>`: the accumulated SQL text, the
number of arguments pushed so far, and the ordered record of binder
invocations `(position, value)`. -/
structure QueryBuilder where
  sql : String
  argCount : Nat
  binds : List (Nat × BindValue)

/-- Model of sqlx `QueryBuilder::new(init)`. -/
def QueryBuilder.new (init : String) : QueryBuilder :=
  { sql := init, argCount := 0, binds := [] }

/-- Model of sqlx `QueryBuilder::push`: appends raw SQL text. -/
def QueryBuilder.push (qb : QueryBuilder) (s : String) : QueryBuilder :=
  { qb with sql := qb.sql ++ s }

/-- Model of sqlx Postgres `QueryBuilder::push_bind`: registers one argument,
emits the positional token for its 1-based position, and records the binder
invocation. -/
def QueryBuilder.push_bind (qb : QueryBuilder) (v : BindValue) : QueryBuilder :=
  { sql := qb.sql ++ "$" ++ (qb.argCount + 1).repr,
    argCount := qb.argCount + 1,
    binds := qb.binds ++ [(qb.argCount + 1, v)] }

/-- Embeds the Rust cast `*v as i64` applied to a `u64` value: wrapping
(bit-pattern preserving) conversion into signed 64-bit range. -/
def u64_as_i64 (v : Nat) : Int :=
  if v < 2 ^ 63 then (v : Int) else (v : Int) - 2 ^ 64

/-- Embeds `SQLValue::push_bind` from `src/sql_value.rs`: each variant is
handed to the destination builder as its wire type; `U64` is downcast with
`*v as i64`. -/
def SQLValue.push_bind (v : SQLValue) (qb : QueryBuilder) : QueryBuilder :=
  match v with
  | .I16 x => qb.push_bind (.i16 x)
  | .I32 x => qb.push_bind (.i32 x)
  | .I64 x => qb.push_bind (.i64 x)
  | .U64 x => qb.push_bind (.i64 (u64_as_i64 x))
  | .F64 x => qb.push_bind (.f64 x)
  | .DateTime x => qb.push_bind (.datetime x)
  | .VecI64 x => qb.push_bind (.vecI64 x)
  | .String x => qb.push_bind (.str x)
  | .Bool x => qb.push_bind (.bool x)

/-- Modelled from the spec: the boolean-join operator `BoolKind` is referenced
by `src/where_clause.rs` (`use crate::BoolKind`) but its definition is not
among the provided sources.  Per the spec (section 3, section 4.1, glossary,
P2/P3) a joiner is one of AND/OR, rendered lowercase between conditions. -/
inductive BoolKind where
  | And
  | Or
  deriving Repr, DecidableEq

/-- Modelled from the spec: the textual form of a joiner, as used between
single-value conditions (spec P2 renders " and ", P3 renders " or "). -/
def BoolKind.as_str : BoolKind → String
  | .And => "and"
  | .Or => "or"

/-- Embeds `WhereClauses` from `src/where_clause.rs`: two independent ordered
lists, single-value conditions (template, value, joiner) and multi-value
conditions (template, values). -/
structure WhereClauses where
  clauses : List (String × SQLValue × BoolKind)
  multi_clauses : List (String × List SQLValue)

/-- Embeds `WhereClauses::new` from `src/where_clause.rs`. -/
def WhereClauses.new : WhereClauses :=
  { clauses := [], multi_clauses := [] }

/-- Embeds `WhereClauses::push` from `src/where_clause.rs`. -/
def WhereClauses.push (w : WhereClauses) (clause : String) (value : SQLValue)
    (kind : BoolKind) : WhereClauses :=
  { w with clauses := w.clauses ++ [(clause, value, kind)] }

/-- Embeds `WhereClauses::push_multi` from `src/where_clause.rs`. -/
def WhereClauses.push_multi (w : WhereClauses) (clause : String)
    (value : List SQLValue) : WhereClauses :=
  { w with multi_clauses := w.multi_clauses ++ [(clause, value)] }

/-- Embeds `WhereClauses::parts` from `src/where_clause.rs`: the early return
on both lists empty, the indexed loop over single-value conditions (separator
after entry `i` is that entry's joiner unless `i` is last), the indexed loop
over multi-value conditions (separator " and " unless last), and the value
list: single values in order, then multi values flattened. -/
def WhereClauses.parts (w : WhereClauses) : String × List SQLValue :=
  if w.clauses.isEmpty && w.multi_clauses.isEmpty then ("", [])
  else
    let out := " where "
    let out := w.clauses.enum.foldl
      (fun out p =>
        out ++ p.2.1 ++
          (if p.1 ≠ w.clauses.length - 1 then " " ++ p.2.2.2.as_str ++ " " else ""))
      out
    let out := w.multi_clauses.enum.foldl
      (fun out p =>
        out ++ p.2.1 ++ (if p.1 ≠ w.multi_clauses.length - 1 then " and " else ""))
      out
    (out, w.clauses.map (fun c => c.2.1) ++ w.multi_clauses.flatMap (fun m => m.2))

namespace Lib

/-- Embeds the inline `SQLValue` of `src/lib.rs` (six variants). -/
inductive SQLValue where
  | I16 (v : Int)
  | I32 (v : Int)
  | I64 (v : Int)
  | U64 (v : Nat)
  | DateTime (v : NaiveDateTime)
  | VecI64 (v : List Int)
  deriving Repr, DecidableEq

/-- Embeds the inline `SQLValue::push_bind` of `src/lib.rs`; the `U64` arm is
the same `*v as i64` downcast as in `src/sql_value.rs`. -/
def SQLValue.push_bind (v : SQLValue) (qb : QueryBuilder) : QueryBuilder :=
  match v with
  | .I16 x => qb.push_bind (.i16 x)
  | .I32 x => qb.push_bind (.i32 x)
  | .I64 x => qb.push_bind (.i64 x)
  | .U64 x => qb.push_bind (.i64 (u64_as_i64 x))
  | .DateTime x => qb.push_bind (.datetime x)
  | .VecI64 x => qb.push_bind (.vecI64 x)

/-- The wire value each inline `SQLValue` variant is handed to the driver as
(read off the arms of `SQLValue::push_bind`). -/
def SQLValue.toBind : SQLValue → BindValue
  | .I16 x => .i16 x
  | .I32 x => .i32 x
  | .I64 x => .i64 x
  | .U64 x => .i64 (u64_as_i64 x)
  | .DateTime x => .datetime x
  | .VecI64 x => .vecI64 x

/-- Embeds the inline `WhereClauses` of `src/lib.rs`: a single ordered list of
(template, value) pairs. -/
structure WhereClauses where
  clauses : List (String × SQLValue)
  deriving Repr, DecidableEq

/-- Embeds the inline `WhereClauses::new` of `src/lib.rs`. -/
def WhereClauses.new : WhereClauses :=
  { clauses := [] }

/-- Embeds the inline `WhereClauses::push` of `src/lib.rs`. -/
def WhereClauses.push (w : WhereClauses) (clause : String) (value : SQLValue) :
    WhereClauses :=
  { clauses := w.clauses ++ [(clause, value)] }

/-- Embeds the inline `WhereClauses::parts` of `src/lib.rs`: early return when
empty, otherwise " where " plus the indexed loop joining clause templates with
" and " (separator skipped after the last entry), paired with the clause
values in order. -/
def WhereClauses.parts (w : WhereClauses) : String × List SQLValue :=
  if w.clauses.isEmpty then ("", [])
  else
    (w.clauses.enum.foldl
      (fun out p =>
        out ++ p.2.1 ++ (if p.1 ≠ w.clauses.length - 1 then " and " else ""))
      " where ",
     w.clauses.map (fun c => c.2))

mutual
/-- Embeds `TableType` from `src/lib.rs`. -/
inductive TableType where
  | Simple (s : String)
  | Complex (s : String) (parts : List ComposableQueryBuilder)

/-- Embeds `ComposableQueryBuilder` from `src/lib.rs` (fields in source
order). -/
inductive ComposableQueryBuilder where
  | mk (table : TableType) (select : List String) (group_by : List String)
       (joins : List String) (where_clause : WhereClauses)
       (limit : Option Nat) (offset : Option Nat)
       (order_by : Option (String × OrderDir))
end

/-- Embeds Rust's `str::split('?')` over the marker character: the list of
literal segments between markers ('?' occurrences are dropped; a leading,
trailing or doubled marker contributes an empty segment). -/
def splitMarkerChars : List Char → List (List Char)
  | [] => [[]]
  | c :: cs =>
    match splitMarkerChars cs with
    | [] => [[c]]
    | r :: rs => if c = '?' then [] :: r :: rs else (c :: r) :: rs

/-- `splitOnMarker s` is `s.split('?')` from the Rust source, as a list of
strings. -/
def splitOnMarker (s : String) : List String :=
  (splitMarkerChars s.data).map String.mk

/-- The concatenation of a run of surplus literal segments, as produced by
consecutive `Left` arms of the `zip_longest` loops in
`ComposableQueryBuilder::parts` and `into_builder`: each surplus segment is
pushed verbatim with nothing between. -/
def joinSegs : List String → String
  | [] => ""
  | s :: rest => s ++ joinSegs rest

/-- Embeds the `zip_longest` loop of the `TableType::Complex` branch of
`ComposableQueryBuilder::parts` (and the identical loop of `into_builder`,
specialised there to value binding): pair literal segments with assembled
child pairs positionally; `Both` emits segment then child splice, `Left`
emits the surplus segment, `Right` emits the surplus child splice. -/
def interleaveParts {α : Type} : List String → List (String × List α) → String × List α
  | segs, [] => (joinSegs segs, [])
  | [], p :: rest =>
    let r := interleaveParts [] rest
    (p.1 ++ r.1, p.2 ++ r.2)
  | seg :: segs, p :: rest =>
    let r := interleaveParts segs rest
    (seg ++ p.1 ++ r.1, p.2 ++ r.2)

/-- Embeds the tail of `ComposableQueryBuilder::parts` after the table match:
`" limit "` is emitted (with no marker) and the limit value appended when the
limit is set. -/
def applyLimit (limit : Option Nat) (p : String × List SQLValue) :
    String × List SQLValue :=
  match limit with
  | some l => (p.1 ++ " limit ", p.2 ++ [SQLValue.U64 l])
  | none => p

/-- Embeds the offset arm at the end of `ComposableQueryBuilder::parts`:
`" offset "` is emitted (with no marker) and the offset value appended when
the offset is set. -/
def applyOffset (offset : Option Nat) (p : String × List SQLValue) :
    String × List SQLValue :=
  match offset with
  | some o => (p.1 ++ " offset ", p.2 ++ [SQLValue.U64 o])
  | none => p

/-- The non-recursive body of `ComposableQueryBuilder::parts` around the
already-assembled table pair `tp`: select list (or `*`), `" from "`, table
splice, joins each after a single space, where-clause render, group by,
order by; values are the table values followed by the where values. -/
def assembleCore (tp : String × List SQLValue) (sel gb js : List String)
    (wc : WhereClauses) (ob : Option (String × OrderDir)) :
    String × List SQLValue :=
  let str := "select " ++ (if sel.isEmpty then "*" else String.intercalate ", " sel)
    ++ " from " ++ tp.1
  let str := js.foldl (fun acc j => acc ++ " " ++ j) str
  let wp := wc.parts
  let str := str ++ wp.1
  let str := if gb.isEmpty then str else str ++ " group by " ++ String.intercalate ", " gb
  let str := match ob with
    | some co => str ++ " order by " ++ co.1 ++ " " ++ co.2.as_str ++ " "
    | none => str
  (str, tp.2 ++ wp.2)

mutual
/-- Embeds `ComposableQueryBuilder::parts` from `src/lib.rs`: a `Simple` table
contributes its name and no values; a `Complex` table splits its template on
the marker and interleaves segments with recursively assembled children; then
joins, where clauses, group by, order by, limit and offset are appended in
source order. -/
def ComposableQueryBuilder.parts : ComposableQueryBuilder → String × List SQLValue
  | .mk (.Simple s) sel gb js wc lim off ob =>
    applyOffset off (applyLimit lim (assembleCore (s, []) sel gb js wc ob))
  | .mk (.Complex s ps) sel gb js wc lim off ob =>
    applyOffset off (applyLimit lim
      (assembleCore (interleaveParts (splitOnMarker s) (partsList ps)) sel gb js wc ob))

/-- Assembles each child builder of a `Complex` table in order (the recursive
`qb.parts()` calls of the `zip_longest` loop). -/
def partsList : List ComposableQueryBuilder → List (String × List SQLValue)
  | [] => []
  | q :: qs => q.parts :: partsList qs
end

/-- Embeds `ComposableQueryBuilder::new` from `src/lib.rs`. -/
def ComposableQueryBuilder.new : ComposableQueryBuilder :=
  .mk (.Simple "") [] [] [] WhereClauses.new none none none

/-- Embeds `ComposableQueryBuilder::table` from `src/lib.rs`. -/
def ComposableQueryBuilder.table (b : ComposableQueryBuilder) (t : String) :
    ComposableQueryBuilder :=
  match b with
  | .mk _ sel gb js wc lim off ob => .mk (.Simple t) sel gb js wc lim off ob

/-- Embeds `ComposableQueryBuilder::complex_table` from `src/lib.rs`. -/
def ComposableQueryBuilder.complex_table (b : ComposableQueryBuilder)
    (t : String) (ps : List ComposableQueryBuilder) : ComposableQueryBuilder :=
  match b with
  | .mk _ sel gb js wc lim off ob => .mk (.Complex t ps) sel gb js wc lim off ob

/-- Embeds `ComposableQueryBuilder::where_clause` from `src/lib.rs`. -/
def ComposableQueryBuilder.where_clause (b : ComposableQueryBuilder)
    (s : String) (v : SQLValue) : ComposableQueryBuilder :=
  match b with
  | .mk t sel gb js wc lim off ob => .mk t sel gb js (wc.push s v) lim off ob

/-- Embeds `ComposableQueryBuilder::where_if` from `src/lib.rs`: early return
of the unchanged builder when the condition is false; otherwise the producer's
pair is pushed onto the condition list. -/
def ComposableQueryBuilder.where_if (b : ComposableQueryBuilder)
    (condition : Bool) (cb : Unit → String × SQLValue) : ComposableQueryBuilder :=
  if !condition then b
  else
    let sv := cb ()
    match b with
    | .mk t sel gb js wc lim off ob => .mk t sel gb js (wc.push sv.1 sv.2) lim off ob

/-- Embeds `ComposableQueryBuilder::limit` from `src/lib.rs`. -/
def ComposableQueryBuilder.limit (b : ComposableQueryBuilder) (n : Nat) :
    ComposableQueryBuilder :=
  match b with
  | .mk t sel gb js wc _ off ob => .mk t sel gb js wc (some n) off ob

/-- Embeds `ComposableQueryBuilder::offset` from `src/lib.rs`. -/
def ComposableQueryBuilder.offset (b : ComposableQueryBuilder) (n : Nat) :
    ComposableQueryBuilder :=
  match b with
  | .mk t sel gb js wc lim _ ob => .mk t sel gb js wc lim (some n) ob

/-- Embeds the `zip_longest` render loop of
`ComposableQueryBuilder::into_builder`: `Both` pushes the segment then binds
the value, `Left` pushes the surplus segment, `Right` binds the surplus
value. -/
def renderFold : List String → List SQLValue → QueryBuilder → QueryBuilder
  | [], [], qb => qb
  | seg :: segs, [], qb => renderFold segs [] (qb.push seg)
  | [], v :: vs, qb => renderFold [] vs (v.push_bind qb)
  | seg :: segs, v :: vs, qb => renderFold segs vs (v.push_bind (qb.push seg))

/-- Embeds `ComposableQueryBuilder::into_builder` from `src/lib.rs`: assemble,
split the template on the marker, and drive the render loop over a fresh
driver builder. -/
def ComposableQueryBuilder.into_builder (b : ComposableQueryBuilder) : QueryBuilder :=
  let pv := b.parts
  renderFold (splitOnMarker pv.1) pv.2 (QueryBuilder.new "")

end Lib

/-! ## Derived definitions used by the theorems -/

/-- A concrete child builder (`new().table("t0")`) used to instantiate
universally quantified theorems at closed inputs. -/
def exChild : Lib.ComposableQueryBuilder :=
  Lib.ComposableQueryBuilder.new.table "t0"

/-- A second concrete builder (`new().table("t1")`) used to instantiate
universally quantified theorems at closed inputs. -/
def exChild2 : Lib.ComposableQueryBuilder :=
  Lib.ComposableQueryBuilder.new.table "t1"

/-- Specification form of the indexed separator loops: element texts joined so
that the separator written after element `i` (for non-final `i`) is computed
from element `i` itself, and the final element contributes no separator. -/
def loopJoin {α : Type} (g sep : α → String) : List α → String
  | [] => ""
  | [c] => g c
  | c :: c' :: rest => g c ++ sep c ++ loopJoin g sep (c' :: rest)

/-- The single-value condition part of the rendered where text: conditions in
insertion order, with `" " ++ joiner-of-the-earlier ++ " "` between
consecutive conditions and nothing after the last. -/
def singlesJoin : List (String × SQLValue × BoolKind) → String
  | [] => ""
  | [c] => c.1
  | c :: c' :: rest => c.1 ++ " " ++ c.2.2.as_str ++ " " ++ singlesJoin (c' :: rest)

/-- The multi-value condition part of the rendered where text: templates in
insertion order joined by `" and "`. -/
def multisJoin : List (String × List SQLValue) → String
  | [] => ""
  | [m] => m.1
  | m :: m' :: rest => m.1 ++ " and " ++ multisJoin (m' :: rest)

/-- The text contributed before the last single-value condition: each earlier
condition's template followed by its own joiner, space-surrounded. -/
def singlesPre : List (String × SQLValue × BoolKind) → String
  | [] => ""
  | c :: rest => c.1 ++ " " ++ c.2.2.as_str ++ " " ++ singlesPre rest

/-- The text contributed after the first multi-value condition: `" and "`
before each further multi-value template. -/
def multisSuf : List (String × List SQLValue) → String
  | [] => ""
  | m :: rest => " and " ++ m.1 ++ multisSuf rest

/-- One configuration call on the condition set of `src/where_clause.rs`:
either a `push` of a single-value condition or a `push_multi` of a
multi-value condition. -/
def applyOp (w : WhereClauses) :
    Sum (String × SQLValue × BoolKind) (String × List SQLValue) → WhereClauses
  | .inl c => w.push c.1 c.2.1 c.2.2
  | .inr m => w.push_multi m.1 m.2

/-- The single-value conditions of a configuration call sequence, in call
order. -/
def singlesOf
    (ops : List (Sum (String × SQLValue × BoolKind) (String × List SQLValue))) :
    List (String × SQLValue × BoolKind) :=
  ops.filterMap fun o => match o with | .inl c => some c | .inr _ => none

/-- The multi-value conditions of a configuration call sequence, in call
order. -/
def multisOf
    (ops : List (Sum (String × SQLValue × BoolKind) (String × List SQLValue))) :
    List (String × List SQLValue) :=
  ops.filterMap fun o => match o with | .inr m => some m | .inl _ => none


/-! ## Characterization of the separator loops in `WhereClauses::parts` -/

/-- The indexed `foldl` with the `i ≠ len - 1` test (as in both
`WhereClauses::parts` loops) computes `loopJoin`: `m` is the index of the last
element relative to the enumeration start `k`. -/
theorem enumFrom_foldl_sep {α : Type} (g sep : α → String) :
    ∀ (l : List α) (k m : Nat) (acc : String), m + 1 = k + l.length →
      (l.enumFrom k).foldl
        (fun out p => out ++ g p.2 ++ (if p.1 ≠ m then sep p.2 else "")) acc
        = acc ++ loopJoin g sep l
  | [], _, _, acc, _ => by simp [loopJoin]
  | [c], k, m, acc, h => by
    have hk : k = m := by simp at h; omega
    simp [List.enumFrom, loopJoin, hk]
  | c :: c' :: rest, k, m, acc, h => by
    have hne : k ≠ m := by simp at h; omega
    have ih := enumFrom_foldl_sep g sep (c' :: rest) (k + 1) m
      (acc ++ g c ++ sep c) (by simp at h ⊢; omega)
    simp only [List.enumFrom_cons, List.foldl_cons, hne, ne_eq,
      not_false_eq_true, if_true, ite_true] at ih ⊢
    rw [ih, loopJoin]
    simp [String.append_assoc]

theorem singlesJoin_eq_loopJoin : ∀ l : List (String × SQLValue × BoolKind),
    singlesJoin l = loopJoin (fun c => c.1) (fun c => " " ++ c.2.2.as_str ++ " ") l
  | [] => rfl
  | [_] => rfl
  | c :: c' :: rest => by
    rw [singlesJoin, loopJoin, singlesJoin_eq_loopJoin (c' :: rest)]
    simp [String.append_assoc]

theorem multisJoin_eq_loopJoin : ∀ l : List (String × List SQLValue),
    multisJoin l = loopJoin (fun m => m.1) (fun _ => " and ") l
  | [] => rfl
  | [_] => rfl
  | m :: m' :: rest => by
    rw [multisJoin, loopJoin, multisJoin_eq_loopJoin (m' :: rest)]

/-- Text component of `WhereClauses::parts` (`src/where_clause.rs`): when at
least one condition exists, the output is `" where "`, the single-value
conditions joined by their earlier-condition joiners, then the multi-value
templates joined by `" and "`. -/
theorem whereClauses_parts_text (singles : List (String × SQLValue × BoolKind))
    (multis : List (String × List SQLValue)) (h : singles ≠ [] ∨ multis ≠ []) :
    (WhereClauses.parts ⟨singles, multis⟩).1
      = " where " ++ singlesJoin singles ++ multisJoin multis := by
  have hcond : (singles.isEmpty && multis.isEmpty) = false := by
    rcases h with h | h <;> cases singles <;> cases multis <;> simp_all
  unfold WhereClauses.parts
  simp only [hcond, Bool.false_eq_true, if_false]
  rcases singles with _ | ⟨c, cs⟩
  · rcases multis with _ | ⟨m, ms⟩
    · simp at hcond
    · have hm := enumFrom_foldl_sep (fun m : String × List SQLValue => m.1)
        (fun _ => " and ") (m :: ms) 0 ((m :: ms).length - 1) " where "
        (by simp)
      simp only [List.enum, List.enumFrom_nil, List.foldl_nil] at *
      rw [hm, ← multisJoin_eq_loopJoin]
      simp [singlesJoin]
  · have hc := enumFrom_foldl_sep (fun c : String × SQLValue × BoolKind => c.1)
      (fun c => " " ++ c.2.2.as_str ++ " ") (c :: cs) 0 ((c :: cs).length - 1)
      " where " (by simp)
    simp only [List.enum] at *
    rw [hc, ← singlesJoin_eq_loopJoin]
    rcases multis with _ | ⟨m, ms⟩
    · simp [multisJoin]
    · have hm := enumFrom_foldl_sep (fun m : String × List SQLValue => m.1)
        (fun _ => " and ") (m :: ms) 0 ((m :: ms).length - 1)
        (" where " ++ singlesJoin (c :: cs)) (by simp)
      rw [hm, ← multisJoin_eq_loopJoin]

/-- Value component of `WhereClauses::parts` (`src/where_clause.rs`): all
single-value conditions' values in insertion order, then all multi-value
conditions' values flattened in insertion order. -/
theorem whereClauses_parts_values (singles : List (String × SQLValue × BoolKind))
    (multis : List (String × List SQLValue)) :
    (WhereClauses.parts ⟨singles, multis⟩).2
      = singles.map (fun c => c.2.1) ++ multis.flatMap (fun m => m.2) := by
  unfold WhereClauses.parts
  by_cases hb : (singles.isEmpty && multis.isEmpty) = true
  · simp only [List.isEmpty_iff, Bool.and_eq_true] at hb
    simp [hb.1, hb.2]
  · simp [Bool.eq_false_iff.mpr hb]

/-- C4: when the condition set renders its single-value conditions, the
boolean operator written between condition `i` and condition `i+1` is the
joiner attached to condition `i` (the earlier one), surrounded by single
spaces, and the final single-value condition is followed by no joiner: the
rendered text is `" where "` followed by `singlesJoin` — whose recursion emits
conditions[i].template then `" " ++ conditions[i].joiner.as_str ++ " "`
exactly when `i` is not last — and then the multi-value part. -/
theorem where_joiner_of_earlier (singles : List (String × SQLValue × BoolKind))
    (multis : List (String × List SQLValue)) (h : singles ≠ []) :
    (WhereClauses.parts ⟨singles, multis⟩).1
      = " where " ++ singlesJoin singles ++ multisJoin multis :=
  whereClauses_parts_text singles multis (Or.inl h)

theorem where_joiner_of_earlier_witness :
    (WhereClauses.parts ⟨[("a = ?", SQLValue.I64 1, BoolKind.Or),
        ("b = ?", SQLValue.I64 2, BoolKind.And), ("c = ?", SQLValue.I64 3, BoolKind.Or)],
        []⟩).1
      = " where a = ? or b = ? and c = ?" := by
  rw [where_joiner_of_earlier _ _ (by simp)]
  rfl

theorem singlesJoin_append_last :
    ∀ (sp : List (String × SQLValue × BoolKind)) (sl : String × SQLValue × BoolKind),
      singlesJoin (sp ++ [sl]) = singlesPre sp ++ sl.1
  | [], sl => by simp [singlesJoin, singlesPre]
  | [c], sl => by simp [singlesJoin, singlesPre, String.append_assoc]
  | c :: d :: sp, sl => by
    have ih := singlesJoin_append_last (d :: sp) sl
    simp only [List.cons_append] at ih ⊢
    rw [singlesJoin, ih]
    simp [singlesPre, String.append_assoc]

theorem multisJoin_cons_head :
    ∀ (m : String × List SQLValue) (ms : List (String × List SQLValue)),
      multisJoin (m :: ms) = m.1 ++ multisSuf ms
  | _, [] => by simp [multisJoin, multisSuf]
  | m, m' :: ms => by
    rw [multisJoin, multisJoin_cons_head m' ms, multisSuf]
    simp [String.append_assoc]

/-- C9: when the condition set holds at least one single-value and at least
one multi-value condition, the first multi-value template is concatenated
directly after the last single-value template with no separating text at all,
and `" and "` appears only between consecutive multi-value conditions. -/
theorem single_multi_no_separator (sp : List (String × SQLValue × BoolKind))
    (sl : String × SQLValue × BoolKind) (m : String × List SQLValue)
    (ms : List (String × List SQLValue)) :
    (WhereClauses.parts ⟨sp ++ [sl], m :: ms⟩).1
      = (" where " ++ singlesPre sp) ++ (sl.1 ++ m.1) ++ multisSuf ms := by
  rw [whereClauses_parts_text _ _ (Or.inr (by simp)),
    singlesJoin_append_last, multisJoin_cons_head]
  simp [String.append_assoc]

theorem foldl_applyOp_state :
    ∀ (ops : List (Sum (String × SQLValue × BoolKind) (String × List SQLValue)))
      (w : WhereClauses),
      (ops.foldl applyOp w).clauses = w.clauses ++ singlesOf ops
      ∧ (ops.foldl applyOp w).multi_clauses = w.multi_clauses ++ multisOf ops
  | [], w => by simp [singlesOf, multisOf]
  | .inl c :: ops, w => by
    have ih := foldl_applyOp_state ops (w.push c.1 c.2.1 c.2.2)
    simp only [List.foldl_cons, applyOp] at ih ⊢
    rw [ih.1, ih.2]
    simp [WhereClauses.push, singlesOf, multisOf]
  | .inr m :: ops, w => by
    have ih := foldl_applyOp_state ops (w.push_multi m.1 m.2)
    simp only [List.foldl_cons, applyOp] at ih ⊢
    rw [ih.1, ih.2]
    simp [WhereClauses.push_multi, singlesOf, multisOf]

/-- C5: for every interleaving of `push` and `push_multi` configuration
calls, the value list returned by `WhereClauses::parts` is exactly the values
of the single-value conditions in insertion order followed by the values of
the multi-value conditions flattened in insertion order. -/
theorem where_values_singles_then_multis
    (ops : List (Sum (String × SQLValue × BoolKind) (String × List SQLValue))) :
    ((ops.foldl applyOp WhereClauses.new).parts).2
      = (singlesOf ops).map (fun c => c.2.1)
        ++ (multisOf ops).flatMap (fun m => m.2) := by
  have hs := foldl_applyOp_state ops WhereClauses.new
  have hv := whereClauses_parts_values (ops.foldl applyOp WhereClauses.new).clauses
    (ops.foldl applyOp WhereClauses.new).multi_clauses
  rw [hv, hs.1, hs.2]
  simp [WhereClauses.new]

/-! ## Composite table assembly (`TableType::Complex` branch) -/

theorem interleave_nil_segs {α : Type} : ∀ l : List (String × List α),
    Lib.interleaveParts [] l = (Lib.joinSegs (l.map Prod.fst), (l.map Prod.snd).flatten)
  | [] => rfl
  | p :: rest => by
    simp only [Lib.interleaveParts, interleave_nil_segs rest, List.map_cons,
      Lib.joinSegs, List.flatten_cons]

/-- The value component of the interleaving loop is the children's value lists
concatenated in child order, whatever the segment list is. -/
theorem interleave_values {α : Type} : ∀ (segs : List String) (l : List (String × List α)),
    (Lib.interleaveParts segs l).2 = (l.map Prod.snd).flatten
  | _, [] => by simp [Lib.interleaveParts]
  | [], p :: rest => by simp [Lib.interleaveParts, interleave_values [] rest]
  | _ :: segs, p :: rest => by simp [Lib.interleaveParts, interleave_values segs rest]

/-- Surplus-segment leniency of the interleaving loop: with segments beyond
the matched prefix, the output text merely gains the surplus segments
concatenated verbatim, and the values are unchanged. -/
theorem interleave_more_segs {α : Type} :
    ∀ (s1 : List String) (l : List (String × List α)) (s2 : List String),
      s1.length = l.length →
      Lib.interleaveParts (s1 ++ s2) l
        = ((Lib.interleaveParts s1 l).1 ++ Lib.joinSegs s2,
           (Lib.interleaveParts s1 l).2)
  | [], [], s2, _ => by simp [Lib.interleaveParts, Lib.joinSegs]
  | [], p :: rest, _, h => by simp at h
  | seg :: s1, [], _, h => by simp at h
  | seg :: s1, p :: rest, s2, h => by
    have ih := interleave_more_segs s1 rest s2 (by simpa using h)
    simp only [List.cons_append, Lib.interleaveParts, List.append_eq, ih]
    simp [String.append_assoc]

/-- Surplus-children leniency of the interleaving loop: with children beyond
the matched prefix, the output gains the surplus children's subtemplates
concatenated verbatim (no separator) and their subvalues appended in order. -/
theorem interleave_more_children {α : Type} :
    ∀ (segs : List String) (l1 l2 : List (String × List α)),
      segs.length = l1.length →
      Lib.interleaveParts segs (l1 ++ l2)
        = ((Lib.interleaveParts segs l1).1 ++ Lib.joinSegs (l2.map Prod.fst),
           (Lib.interleaveParts segs l1).2 ++ (l2.map Prod.snd).flatten)
  | [], [], l2, _ => by
    rw [List.nil_append, interleave_nil_segs l2]
    simp [Lib.interleaveParts, Lib.joinSegs]
  | [], p :: rest, _, h => by simp at h
  | seg :: segs, [], _, h => by simp at h
  | seg :: segs, p :: rest, l2, h => by
    have ih := interleave_more_children segs rest l2 (by simpa using h)
    simp only [List.cons_append, Lib.interleaveParts, List.append_eq, ih]
    simp [String.append_assoc]

theorem partsList_append : ∀ l1 l2 : List Lib.ComposableQueryBuilder,
    Lib.partsList (l1 ++ l2) = Lib.partsList l1 ++ Lib.partsList l2
  | [], _ => rfl
  | b :: l1, l2 => by simp [Lib.partsList, partsList_append l1 l2]

theorem partsList_length : ∀ l : List Lib.ComposableQueryBuilder,
    (Lib.partsList l).length = l.length
  | [] => rfl
  | _ :: l => by simp [Lib.partsList, partsList_length l]

/-- C2: assembling a `Complex` table expression never raises an error on a
marker/child count mismatch.  If splitting produced more literal segments than
child builders, the surplus trailing segments are appended verbatim with no
substitution and contribute no values; if there are more child builders than
segments, the surplus children are assembled and their subtemplates and
subvalues appended at the end with no literal separator between them. -/
theorem complex_table_lenient_mismatch :
    (∀ (s1 : List String) (ps : List Lib.ComposableQueryBuilder) (s2 : List String),
        s1.length = ps.length →
        Lib.interleaveParts (s1 ++ s2) (Lib.partsList ps)
          = ((Lib.interleaveParts s1 (Lib.partsList ps)).1 ++ Lib.joinSegs s2,
             (Lib.interleaveParts s1 (Lib.partsList ps)).2))
    ∧ (∀ (segs : List String) (ps1 ps2 : List Lib.ComposableQueryBuilder),
        segs.length = ps1.length →
        Lib.interleaveParts segs (Lib.partsList (ps1 ++ ps2))
          = ((Lib.interleaveParts segs (Lib.partsList ps1)).1
               ++ Lib.joinSegs ((Lib.partsList ps2).map Prod.fst),
             (Lib.interleaveParts segs (Lib.partsList ps1)).2
               ++ ((Lib.partsList ps2).map Prod.snd).flatten)) := by
  constructor
  · intro s1 ps s2 h
    exact interleave_more_segs s1 (Lib.partsList ps) s2
      (h.trans (partsList_length ps).symm)
  · intro segs ps1 ps2 h
    rw [partsList_append]
    exact interleave_more_children segs (Lib.partsList ps1) (Lib.partsList ps2)
      (h.trans (partsList_length ps1).symm)

theorem complex_table_lenient_mismatch_witness :
    (Lib.interleaveParts (["("] ++ [") u", " v"]) (Lib.partsList [exChild])
       = ((Lib.interleaveParts ["("] (Lib.partsList [exChild])).1
            ++ Lib.joinSegs [") u", " v"],
          (Lib.interleaveParts ["("] (Lib.partsList [exChild])).2))
    ∧ (Lib.interleaveParts ["("] (Lib.partsList ([exChild] ++ [exChild2]))
       = ((Lib.interleaveParts ["("] (Lib.partsList [exChild])).1
            ++ Lib.joinSegs ((Lib.partsList [exChild2]).map Prod.fst),
          (Lib.interleaveParts ["("] (Lib.partsList [exChild])).2
            ++ ((Lib.partsList [exChild2]).map Prod.snd).flatten)) :=
  ⟨complex_table_lenient_mismatch.1 ["("] [exChild] [") u", " v"] rfl,
   complex_table_lenient_mismatch.2 ["("] [exChild] [exChild2] rfl⟩

/-- C3: a `Complex` table splices each child's assembled subtemplate directly
at its marker position with no separator, and accumulates values depth-first
left-to-right: every child contributes its full assembled value list, in
child order, at the position dictated by its marker (second conjunct); in
particular for a one-marker template the assembled builder is exactly
`"select * from " ++ prefix ++ child-template ++ suffix` with exactly the
child's values (first conjunct, the generalisation of spec example P5). -/
theorem complex_table_splice :
    (∀ (t t1 t2 : String) (child : Lib.ComposableQueryBuilder),
        Lib.splitOnMarker t = [t1, t2] →
        (Lib.ComposableQueryBuilder.new.complex_table t [child]).parts
          = ("select * from " ++ t1 ++ child.parts.1 ++ t2, child.parts.2))
    ∧ (∀ (segs : List String) (l : List (String × List Lib.SQLValue)),
        (Lib.interleaveParts segs l).2 = (l.map Prod.snd).flatten) := by
  constructor
  · intro t t1 t2 child h
    have hlit : ("select " : String) ++ "*" ++ " from " = "select * from " := by decide
    show (Lib.ComposableQueryBuilder.mk (.Complex t [child]) [] [] []
      Lib.WhereClauses.new none none none).parts = _
    rw [Lib.ComposableQueryBuilder.parts, h]
    simp only [Lib.partsList, Lib.interleaveParts, Lib.joinSegs, Lib.applyLimit,
      Lib.applyOffset, Lib.assembleCore, Lib.WhereClauses.parts, Lib.WhereClauses.new,
      List.isEmpty_nil, if_true, List.foldl_nil, List.append_nil]
    rw [← hlit]
    simp [String.append_assoc]
  · exact interleave_values

theorem complex_table_splice_witness :
    (Lib.ComposableQueryBuilder.new.complex_table "(?) as u" [exChild]).parts
      = ("select * from " ++ "(" ++ exChild.parts.1 ++ ") as u", exChild.parts.2) :=
  complex_table_splice.1 "(?) as u" "(" ") as u" exChild (by decide)

/-! ## Rendering (`into_builder`) and value binding -/

theorem push_bind_toBind (v : Lib.SQLValue) (qb : QueryBuilder) :
    Lib.SQLValue.push_bind v qb = qb.push_bind v.toBind := by
  cases v <;> rfl

theorem push_bind_binds (qb : QueryBuilder) (v : BindValue) :
    (qb.push_bind v).binds = qb.binds ++ [(qb.argCount + 1, v)] := rfl

theorem push_bind_argCount (qb : QueryBuilder) (v : BindValue) :
    (qb.push_bind v).argCount = qb.argCount + 1 := rfl

theorem push_binds (qb : QueryBuilder) (s : String) :
    (qb.push s).binds = qb.binds := rfl

theorem push_argCount (qb : QueryBuilder) (s : String) :
    (qb.push s).argCount = qb.argCount := rfl

/-- The render loop binds every value in list order, assigning consecutive
1-based positions starting after the builder's current argument count; raw
segments never touch the argument state. -/
theorem renderFold_spec :
    ∀ (segs : List String) (vs : List Lib.SQLValue) (qb : QueryBuilder),
      (Lib.renderFold segs vs qb).binds
          = qb.binds
            ++ (List.range' (qb.argCount + 1) vs.length).zip (vs.map Lib.SQLValue.toBind)
      ∧ (Lib.renderFold segs vs qb).argCount = qb.argCount + vs.length
  | [], [], qb => by simp [Lib.renderFold]
  | seg :: segs, [], qb => by
    have ih := renderFold_spec segs [] (qb.push seg)
    simpa [Lib.renderFold, QueryBuilder.push] using ih
  | [], v :: vs, qb => by
    have ih := renderFold_spec [] vs (v.push_bind qb)
    rw [push_bind_toBind] at ih
    rw [Lib.renderFold, push_bind_toBind]
    constructor
    · rw [ih.1, push_bind_binds, push_bind_argCount]
      simp [List.range'_succ, List.append_assoc]
    · rw [ih.2]
      simp only [QueryBuilder.push_bind, List.length_cons]
      omega
  | seg :: segs, v :: vs, qb => by
    have ih := renderFold_spec segs vs (v.push_bind (qb.push seg))
    rw [push_bind_toBind] at ih
    rw [Lib.renderFold, push_bind_toBind]
    constructor
    · rw [ih.1, push_bind_binds, push_bind_argCount, push_binds, push_argCount]
      simp [List.range'_succ, List.append_assoc]
    · rw [ih.2]
      simp only [QueryBuilder.push_bind, QueryBuilder.push, List.length_cons]
      omega

/-- C6: round trip between assembly and rendering — for every builder, if
`parts` yields V values then `into_builder` invokes the binder exactly V
times, in value-list order, and the positional tokens used are exactly
1, 2, ..., V, strictly increasing with no gaps or repeats; this holds whatever
the relation between the template's marker count and V (the lenient policy
binds surplus values too, each advancing the position counter). -/
theorem render_round_trip (b : Lib.ComposableQueryBuilder) :
    (b.into_builder).binds.map Prod.fst = List.range' 1 b.parts.2.length
    ∧ (b.into_builder).binds.map Prod.snd = b.parts.2.map Lib.SQLValue.toBind
    ∧ (b.into_builder).argCount = b.parts.2.length := by
  have h := renderFold_spec (Lib.splitOnMarker b.parts.1) b.parts.2 (QueryBuilder.new "")
  have hnewb : (QueryBuilder.new "").binds = [] := rfl
  have hnewa : (QueryBuilder.new "").argCount = 0 := rfl
  rw [hnewb, hnewa] at h
  have hlen : (List.range' 1 b.parts.2.length).length
      = (b.parts.2.map Lib.SQLValue.toBind).length := by
    simp
  rw [Lib.ComposableQueryBuilder.into_builder]
  refine ⟨?_, ?_, ?_⟩
  · rw [h.1]
    simp only [List.nil_append, Nat.zero_add]
    exact List.map_fst_zip _ _ (le_of_eq hlen)
  · rw [h.1]
    simp only [List.nil_append, Nat.zero_add]
    exact List.map_snd_zip _ _ (ge_of_eq hlen)
  · rw [h.2]
    simp

/-- C7: binding an unsigned 64-bit value hands the destination statement the
signed 64-bit integer with the same bit pattern: `push_bind` on `U64 v`
invokes the driver's bind with `i64 (u64_as_i64 v)`, where `u64_as_i64 v`
lies in signed 64-bit range and is congruent to `v` modulo 2^64 (values at or
above 2^63 silently wrap; no error path exists). -/
theorem u64_binds_as_wrapped_i64 (v : Nat) (qb : QueryBuilder) (h : v < 2 ^ 64) :
    SQLValue.push_bind (SQLValue.U64 v) qb
        = qb.push_bind (BindValue.i64 (u64_as_i64 v))
    ∧ -(2 ^ 63) ≤ u64_as_i64 v ∧ u64_as_i64 v < 2 ^ 63
    ∧ u64_as_i64 v % (2 ^ 64) = (v : Int) := by
  have h63 : u64_as_i64 v = if v < 2 ^ 63 then (v : Int) else (v : Int) - 2 ^ 64 := rfl
  refine ⟨rfl, ?_, ?_, ?_⟩ <;> rw [h63] <;> split <;> omega

theorem u64_binds_as_wrapped_i64_witness :
    SQLValue.push_bind (SQLValue.U64 (2 ^ 64 - 1)) (QueryBuilder.new "")
        = (QueryBuilder.new "").push_bind (BindValue.i64 (u64_as_i64 (2 ^ 64 - 1)))
    ∧ -(2 ^ 63) ≤ u64_as_i64 (2 ^ 64 - 1) ∧ u64_as_i64 (2 ^ 64 - 1) < 2 ^ 63
    ∧ u64_as_i64 (2 ^ 64 - 1) % (2 ^ 64) = ((2 ^ 64 - 1 : Nat) : Int) :=
  u64_binds_as_wrapped_i64 (2 ^ 64 - 1) (QueryBuilder.new "") (by norm_num)

/-! ## Configuration surface -/

/-- C8: `where_if` with a false condition returns the builder with every
field unchanged, and its result does not depend on the producer at all (the
extensional content of the producer never being evaluated — the source
returns `self` before calling `cb`); with a true condition it appends exactly
the producer's (template, value) pair to the single-value condition list and
leaves every other field unchanged. -/
theorem where_if_lazy_frame :
    (∀ (b : Lib.ComposableQueryBuilder) (cb : Unit → String × Lib.SQLValue),
        b.where_if false cb = b)
    ∧ (∀ (b : Lib.ComposableQueryBuilder) (cb cb' : Unit → String × Lib.SQLValue),
        b.where_if false cb = b.where_if false cb')
    ∧ (∀ (table : Lib.TableType) (sel gb js : List String)
        (wcl : List (String × Lib.SQLValue)) (lim off : Option Nat)
        (ob : Option (String × OrderDir)) (cb : Unit → String × Lib.SQLValue),
        (Lib.ComposableQueryBuilder.mk table sel gb js ⟨wcl⟩ lim off ob).where_if true cb
          = Lib.ComposableQueryBuilder.mk table sel gb js ⟨wcl ++ [cb ()]⟩ lim off ob) :=
  ⟨fun _ _ => rfl, fun _ _ _ => rfl, fun _ _ _ _ _ _ _ _ _ => rfl⟩

/-- C10: a freshly constructed builder defaults to a `Simple` table with the
empty name, so `new().parts()` is exactly `"select * from "` (trailing space,
empty table name) with no values; and each `table` / `complex_table` call
overwrites the table expression entirely while leaving every other field
unchanged, so the last call wins. -/
theorem default_table_and_overwrite :
    Lib.ComposableQueryBuilder.new.parts = ("select * from ", [])
    ∧ (∀ (table : Lib.TableType) (sel gb js : List String) (wc : Lib.WhereClauses)
        (lim off : Option Nat) (ob : Option (String × OrderDir)) (t : String),
        (Lib.ComposableQueryBuilder.mk table sel gb js wc lim off ob).table t
          = Lib.ComposableQueryBuilder.mk (.Simple t) sel gb js wc lim off ob)
    ∧ (∀ (table : Lib.TableType) (sel gb js : List String) (wc : Lib.WhereClauses)
        (lim off : Option Nat) (ob : Option (String × OrderDir)) (t : String)
        (ps : List Lib.ComposableQueryBuilder),
        (Lib.ComposableQueryBuilder.mk table sel gb js wc lim off ob).complex_table t ps
          = Lib.ComposableQueryBuilder.mk (.Complex t ps) sel gb js wc lim off ob)
    ∧ (∀ (b : Lib.ComposableQueryBuilder) (t1 t2 : String),
        (b.table t1).table t2 = b.table t2)
    ∧ (∀ (b : Lib.ComposableQueryBuilder) (t1 t2 : String)
        (ps : List Lib.ComposableQueryBuilder),
        (b.complex_table t1 ps).table t2 = b.table t2
        ∧ (b.table t1).complex_table t2 ps = b.complex_table t2 ps) := by
  refine ⟨by decide, fun _ _ _ _ _ _ _ _ _ => rfl, fun _ _ _ _ _ _ _ _ _ _ => rfl,
    fun b t1 t2 => ?_, fun b t1 t2 ps => ?_⟩
  · cases b; rfl
  · cases b; exact ⟨rfl, rfl⟩

/-! ## Limit and offset -/

/-- C1 (amended): setting the limit appends exactly the literal `" limit "`
— which contains no marker character at all — to the template and appends
`U64 n` to the value list, leaving everything else unchanged; likewise offset
appends `" offset "` and `U64 n`.  No `?` marker is emitted for limit or
offset; the renderer's lenient surplus-value rule is what binds these
trailing values. -/
theorem limit_offset_no_marker :
    (∀ (table : Lib.TableType) (sel gb js : List String) (wc : Lib.WhereClauses)
        (ob : Option (String × OrderDir)) (n : Nat),
        (Lib.ComposableQueryBuilder.mk table sel gb js wc (some n) none ob).parts
          = ((Lib.ComposableQueryBuilder.mk table sel gb js wc none none ob).parts.1
               ++ " limit ",
             (Lib.ComposableQueryBuilder.mk table sel gb js wc none none ob).parts.2
               ++ [Lib.SQLValue.U64 n]))
    ∧ (∀ (table : Lib.TableType) (sel gb js : List String) (wc : Lib.WhereClauses)
        (lim : Option Nat) (ob : Option (String × OrderDir)) (n : Nat),
        (Lib.ComposableQueryBuilder.mk table sel gb js wc lim (some n) ob).parts
          = ((Lib.ComposableQueryBuilder.mk table sel gb js wc lim none ob).parts.1
               ++ " offset ",
             (Lib.ComposableQueryBuilder.mk table sel gb js wc lim none ob).parts.2
               ++ [Lib.SQLValue.U64 n]))
    ∧ Lib.splitOnMarker " limit " = [" limit "]
    ∧ Lib.splitOnMarker " offset " = [" offset "] := by
  refine ⟨?_, ?_, by decide, by decide⟩
  · intro table sel gb js wc ob n
    cases table <;>
      simp [Lib.ComposableQueryBuilder.parts, Lib.applyLimit, Lib.applyOffset]
  · intro table sel gb js wc lim ob n
    cases table <;>
      simp [Lib.ComposableQueryBuilder.parts, Lib.applyLimit, Lib.applyOffset]

/-- C1 (counterexample): the claim that the assembled template contains
`" limit "` followed by exactly one marker `?` fails: a builder with table
"users" and limit 10 assembles to the template `"select * from users limit "`,
whose split on the marker is a single segment — the template contains no
marker anywhere, in particular none after `" limit "` (the `U64 10` value is
appended nonetheless). -/
theorem limit_marker_counterexample :
    ((Lib.ComposableQueryBuilder.new.table "users").limit 10).parts
      = ("select * from users limit ", [Lib.SQLValue.U64 10])
    ∧ Lib.splitOnMarker "select * from users limit "
      = ["select * from users limit "] :=
  ⟨by decide, by decide⟩
